import Mathlib

/-!
Verification of the respy/robupy dynamic-programming solution engine.

The definitions below are shallow embeddings, over `ℚ`, of

* `_solve_with_backward_induction` and its solution-mode dispatch
  (`src/respy/solve.py`),
* `_create_choice_rewards` (`src/respy/solve.py`),
* `pyth_simulate` (`src/robupy/simulate/simulate_python.py`),
* `convert_init_dict_to_attr_dict` / `convert_attr_dict_to_init_dict`
  and `_paras_mapping` (`src/respy/pre_processing/process_model.py`).

Transcendental primitives of the numerics (`np.exp`, `np.sqrt` inside the
Cholesky decomposition) are passed in as oracle functions `ℚ → ℚ`, so that
every definition stays executable; no claim below depends on the numeric
value such an oracle returns.
-/

namespace RespyVerify

/-- The three solution modes of the backward-induction engine
(`_solve_with_backward_induction` dispatches on `delta == 0`,
`any_interpolated`, else full solution). -/
inductive SolutionMode where
  | myopic
  | interpolated
  | full
deriving DecidableEq, Repr

/-- Shallow embedding of the data consumed by
`_solve_with_backward_induction`.  Core states of a period are indexed by
`Nat`; `nCoreStates p` is `state_space.core.query("period == @period").shape[0]`,
`nDense` is `len(getattr(state_space, "sub_state_spaces", [1]))`.
`wages`/`nonpecs` are indexed by (period, state, choice); `draws` is the
already Cholesky-transformed draw battery indexed by (draw, choice);
`nextState p s c` is the next-period core index of the state reached from
state `s` by choice `c`.  `interpEVF` stands for the `interpolate` routine
(`respy/interpolate.py`, not part of the sources under verification): it is
kept abstract as a component of the model, receiving the same continuation
values the engine hands to it. -/
structure DPModel where
  nPeriods : Nat
  nCoreStates : Nat → Nat
  nDense : Nat
  delta : ℚ
  points : Int
  nDraws : Nat
  nChoices : Nat
  wages : Nat → Nat → Nat → ℚ
  nonpecs : Nat → Nat → Nat → ℚ
  draws : Nat → Nat → ℚ
  nextState : Nat → Nat → Nat → Nat
  interpEVF : Nat → (Nat → Nat → ℚ) → Nat → ℚ

/-- `n_states_in_period = n_core_states * n_dense_combinations`
(solve.py line 148). -/
def nStatesInPeriod (m : DPModel) (p : Nat) : Nat :=
  m.nCoreStates p * m.nDense

/-- `any_interpolated = options["interpolation_points"] <= n_states_in_period
and options["interpolation_points"] != -1` (solve.py lines 149-152). -/
def anyInterpolated (m : DPModel) (p : Nat) : Bool :=
  decide (m.points ≤ (nStatesInPeriod m p : Int)) && decide (m.points ≠ -1)

/-- The spec's wording of the interpolation condition: the configured number
of interpolation points is non-negative and strictly less than the number of
states being solved in the period.  Kept separate from `anyInterpolated`
(which follows the source) so the two can be compared. -/
def specInterpolationEnabled (points : Int) (nStates : Nat) : Prop :=
  0 ≤ points ∧ points < (nStates : Int)

instance (points : Int) (nStates : Nat) :
    Decidable (specInterpolationEnabled points nStates) := by
  unfold specInterpolationEnabled; infer_instance

/-- The dispatch of `_solve_with_backward_induction` (solve.py lines
154-179): `if delta == 0` then the myopic branch, `elif any_interpolated`
then `interpolate`, `else` `_full_solution`. -/
def solutionMode (m : DPModel) (p : Nat) : SolutionMode :=
  if m.delta = 0 then SolutionMode.myopic
  else if anyInterpolated m p then SolutionMode.interpolated
  else SolutionMode.full

/-- The maximum of a list of rationals (`0` on the empty list, which the
engine never produces: every state has at least one choice). -/
def listMax : List ℚ → ℚ
  | [] => 0
  | v :: r => r.foldl max v

/-- Modelled from the spec: the Choice-Value Kernel
(`aggregate utilities inside respy.shared.calculate_expected_value_functions`,
which is not under `src/`).  Per §4.2 the total value of a choice is
wage × shock + non-pecuniary + discount × continuation; the wage entries of
choices without a wage are 1 and their shock is additive, so the single
formula covers both cases. -/
def choiceValue (m : DPModel) (p s : Nat) (cont : Nat → Nat → ℚ)
    (c d : Nat) : ℚ :=
  m.wages p s c * m.draws d c + m.nonpecs p s c + m.delta * cont s c

/-- Modelled from the spec: `calculate_expected_value_functions`
(`respy.shared`, not under `src/`).  Per §4.4, for each state the maximal
total choice value is computed per draw and averaged over the draw battery. -/
def fullSolutionEVF (m : DPModel) (p : Nat) (cont : Nat → Nat → ℚ)
    (s : Nat) : ℚ :=
  (((List.range m.nDraws).map
    (fun d => listMax ((List.range m.nChoices).map
      (fun c => choiceValue m p s cont c d)))).sum) / (m.nDraws : ℚ)

/-- The expected value functions a single period stores, as a function of
the continuation values handed to the chosen solution branch
(solve.py lines 154-184). -/
def periodEVF (m : DPModel) (p : Nat) (cont : Nat → Nat → ℚ) : Nat → ℚ :=
  match solutionMode m p with
  | SolutionMode.myopic => fun _ => 0
  | SolutionMode.interpolated => m.interpEVF p cont
  | SolutionMode.full => fullSolutionEVF m p cont

/-- Modelled from the spec: `state_space.get_continuation_values(period)`
(`respy/state_space.py`, not under `src/`).  Per §4.3(c) and §3, the
continuation value of (state, choice) is the next period's already-solved
expected value function at the state reached by that choice, and zero for
the terminal period.  `table` is the per-period storage of solved expected
value functions (`none` = not yet solved). -/
def contOf (m : DPModel) (table : Nat → Option (Nat → ℚ)) (p : Nat) :
    Nat → Nat → ℚ :=
  fun s c =>
    if p + 1 < m.nPeriods then
      match table (p + 1) with
      | some evf => evf (m.nextState p s c)
      | none => 0
    else 0

/-- One iteration of the `for period in reversed(range(n_periods))` loop:
solve period `p` with the continuation values read from the current table
and store the result under key `p`
(`state_space.set_attribute_from_keys`, solve.py lines 181-184). -/
def biStep (m : DPModel) (table : Nat → Option (Nat → ℚ)) (p : Nat) :
    Nat → Option (Nat → ℚ) :=
  fun q => if q = p then some (periodEVF m p (contOf m table p)) else table q

/-- The backward-induction loop exactly as written in the source:
a fold of `biStep` over `reversed(range(n_periods))`
(solve.py line 133). -/
def solveTable (m : DPModel) : Nat → Option (Nat → ℚ) :=
  ((List.range m.nPeriods).reverse).foldl (biStep m) (fun _ => none)

/-- The table after the engine has processed periods
`nPeriods - 1, …, k` (and is about to process period `k - 1`). -/
def tableFrom (m : DPModel) (k : Nat) : Nat → Option (Nat → ℚ) :=
  if h : k < m.nPeriods then biStep m (tableFrom m (k + 1)) k
  else fun _ => none
termination_by m.nPeriods - k

lemma tableFrom_none (m : DPModel) :
    ∀ j k q, m.nPeriods - k = j → (m.nPeriods ≤ q ∨ q < k) →
      tableFrom m k q = none := by
  intro j
  induction j with
  | zero =>
    intro k q hk _
    rw [tableFrom]
    have : ¬ k < m.nPeriods := by omega
    simp [this]
  | succ j ih =>
    intro k q hk hq
    rw [tableFrom]
    by_cases h : k < m.nPeriods
    · simp only [h, dif_pos, biStep]
      have hqk : q ≠ k := by omega
      simp only [hqk, if_false]
      exact ih (k + 1) q (by omega) (by omega)
    · simp [h]

lemma tableFrom_step (m : DPModel) (k q : Nat) (h : k < q) :
    tableFrom m k q = tableFrom m (k + 1) q := by
  rw [tableFrom]
  by_cases hk : k < m.nPeriods
  · simp only [hk, dif_pos, biStep]
    have : q ≠ k := by omega
    simp [this]
  · simp only [hk, dif_neg]
    exact (tableFrom_none m (m.nPeriods - (k + 1)) (k + 1) q rfl
      (Or.inl (by omega))).symm

lemma tableFrom_agree (m : DPModel) :
    ∀ d j q, j + d ≤ q → tableFrom m j q = tableFrom m (j + d) q := by
  intro d
  induction d with
  | zero => intro j q _; rfl
  | succ d ih =>
    intro j q hq
    have h1 : tableFrom m j q = tableFrom m (j + 1) q :=
      tableFrom_step m j q (by omega)
    rw [h1]
    have h2 := ih (j + 1) q (by omega)
    rw [show j + (d + 1) = j + 1 + d by omega]
    exact h2

lemma tableFrom_self (m : DPModel) (k : Nat) (h : k < m.nPeriods) :
    tableFrom m k k
      = some (periodEVF m k (contOf m (tableFrom m (k + 1)) k)) := by
  rw [tableFrom]
  simp [h, biStep]

lemma foldl_range_reverse (m : DPModel) :
    ∀ l k, m.nPeriods - k = l →
      ((List.range' k l).reverse).foldl (biStep m) (fun _ => none)
        = tableFrom m k := by
  intro l
  induction l with
  | zero =>
    intro k hk
    rw [tableFrom]
    have : ¬ k < m.nPeriods := by omega
    simp [this, List.range']
  | succ l ih =>
    intro k hk
    have hkn : k < m.nPeriods := by omega
    rw [List.range'_succ, List.reverse_cons, List.foldl_append]
    simp only [List.foldl_cons, List.foldl_nil]
    rw [ih (k + 1) (by omega)]
    conv_rhs => rw [tableFrom]
    simp [hkn]

lemma solveTable_eq_tableFrom (m : DPModel) :
    solveTable m = tableFrom m 0 := by
  unfold solveTable
  rw [List.range_eq_range']
  exact foldl_range_reverse m m.nPeriods 0 (by omega)

/-- A small concrete model instance used to instantiate theorems with
hypotheses: two periods, five core states per period, one dense
combination, five interpolation points, non-zero discount factor. -/
def exDP : DPModel where
  nPeriods := 2
  nCoreStates := fun _ => 5
  nDense := 1
  delta := 1
  points := 5
  nDraws := 1
  nChoices := 1
  wages := fun _ _ _ => 1
  nonpecs := fun _ _ _ => 0
  draws := fun _ _ => 1
  nextState := fun _ s _ => s
  interpEVF := fun _ _ _ => 0

/-- The same model with a zero discount factor (a myopic parametrization). -/
def exDPmyopic : DPModel :=
  { exDP with delta := 0 }

/-- C1 (counterexample): with a non-zero discount factor, 5 core states in
the period, one dense combination and 5 configured interpolation points,
the engine chooses interpolation (`points <= n_states_in_period and
points != -1`), although the spec's condition — non-negative and strictly
less than the number of states — is false, since 5 < 5 fails. -/
theorem interpolation_condition_counterexample :
    solutionMode exDP 0 = SolutionMode.interpolated
      ∧ ¬ specInterpolationEnabled exDP.points (nStatesInPeriod exDP 0) := by
  constructor
  · decide
  · decide

/-- C1 (amended): when the discount factor is non-zero, interpolation is
chosen as the solution mode if and only if the configured number of
interpolation points is at most the number of states being solved in the
period (core states in the period times dense combinations) and is not
equal to -1; otherwise the full Monte Carlo solution is used. -/
theorem interpolation_dispatch_amended (m : DPModel) (p : Nat)
    (hd : m.delta ≠ 0) :
    (solutionMode m p = SolutionMode.interpolated
       ↔ (m.points ≤ (nStatesInPeriod m p : Int) ∧ m.points ≠ -1))
    ∧ (solutionMode m p = SolutionMode.full
       ↔ ¬ (m.points ≤ (nStatesInPeriod m p : Int) ∧ m.points ≠ -1)) := by
  have hA : anyInterpolated m p = true
      ↔ (m.points ≤ (nStatesInPeriod m p : Int) ∧ m.points ≠ -1) := by
    simp [anyInterpolated]
  simp only [solutionMode, if_neg hd]
  by_cases hb : anyInterpolated m p = true
  · rw [if_pos hb]
    exact ⟨by simp [hA.mp hb], by simp [hA.mp hb]⟩
  · rw [if_neg hb]
    have hcond : ¬ (m.points ≤ (nStatesInPeriod m p : Int) ∧ m.points ≠ -1) :=
      fun hc => hb (hA.mpr hc)
    exact ⟨by simp [hcond], by simp [hcond]⟩

/-- Witness for the amended C1 theorem at the concrete model `exDP`. -/
theorem interpolation_dispatch_amended_witness :
    exDP.delta ≠ 0
      ∧ ((solutionMode exDP 0 = SolutionMode.interpolated
            ↔ (exDP.points ≤ (nStatesInPeriod exDP 0 : Int)
                 ∧ exDP.points ≠ -1))
         ∧ (solutionMode exDP 0 = SolutionMode.full
            ↔ ¬ (exDP.points ≤ (nStatesInPeriod exDP 0 : Int)
                 ∧ exDP.points ≠ -1))) :=
  ⟨by decide, interpolation_dispatch_amended exDP 0 (by decide)⟩

/-- C2: for every state in every period, if the discount factor is exactly
zero, the expected value function stored by the backward-induction engine is
the constant zero, whatever the rewards, draws or dense partition of the
model are. -/
theorem myopic_expected_value_functions_zero (m : DPModel) (p : Nat)
    (hd : m.delta = 0) (hp : p < m.nPeriods) :
    solveTable m p = some (fun _ => (0 : ℚ)) := by
  have h1 : solveTable m p = tableFrom m p p := by
    rw [solveTable_eq_tableFrom]
    have := tableFrom_agree m p 0 p (by omega)
    simpa using this
  rw [h1, tableFrom_self m p hp]
  simp [periodEVF, solutionMode, hd]

/-- Witness for C2 at the concrete myopic model. -/
theorem myopic_expected_value_functions_zero_witness :
    exDPmyopic.delta = 0 ∧ 0 < exDPmyopic.nPeriods
      ∧ solveTable exDPmyopic 0 = some (fun _ => (0 : ℚ)) :=
  ⟨rfl, by decide,
    myopic_expected_value_functions_zero exDPmyopic 0 rfl (by decide)⟩

/-- C3: the engine solves periods from the last down to period 0; when
period `p` is being solved (table state `tableFrom m (p + 1)`), no result
for period `p` or any earlier period exists yet, the continuation values it
consumes coincide with the final, already-finalized expected value
functions of period `p + 1`, and period `p`'s stored result is computed
from exactly those continuation values. -/
theorem backward_induction_period_order (m : DPModel) (p : Nat)
    (hp : p < m.nPeriods) :
    (∀ q, q ≤ p → tableFrom m (p + 1) q = none)
      ∧ contOf m (tableFrom m (p + 1)) p = contOf m (solveTable m) p
      ∧ solveTable m p
          = some (periodEVF m p (contOf m (tableFrom m (p + 1)) p)) := by
  have hkey : tableFrom m (p + 1) (p + 1) = solveTable m (p + 1) := by
    rw [solveTable_eq_tableFrom]
    have := tableFrom_agree m (p + 1) 0 (p + 1) (by omega)
    simpa using this.symm
  refine ⟨?_, ?_, ?_⟩
  · intro q hq
    exact tableFrom_none m (m.nPeriods - (p + 1)) (p + 1) q rfl
      (Or.inr (by omega))
  · funext s c
    simp only [contOf]
    rw [hkey]
  · have h1 : solveTable m p = tableFrom m p p := by
      rw [solveTable_eq_tableFrom]
      have := tableFrom_agree m p 0 p (by omega)
      simpa using this
    rw [h1, tableFrom_self m p hp]

/-- Witness for C3 at the concrete model `exDP`, period 0. -/
theorem backward_induction_period_order_witness :
    0 < exDP.nPeriods
      ∧ ((∀ q, q ≤ 0 → tableFrom exDP (0 + 1) q = none)
          ∧ contOf exDP (tableFrom exDP (0 + 1)) 0
              = contOf exDP (solveTable exDP) 0
          ∧ solveTable exDP 0
              = some (periodEVF exDP 0
                  (contOf exDP (tableFrom exDP (0 + 1)) 0))) :=
  ⟨by decide, backward_induction_period_order exDP 0 (by decide)⟩

/-- One choice of `_create_choice_rewards`: its optional wage-coefficient
vector and optional non-pecuniary coefficient vector, each a list of
(covariate column, coefficient) pairs — the embedding of
`optim_paras["wage_<choice>"]` / `optim_paras["nonpec_<choice>"]`,
`none` when the key is absent from `optim_paras`. -/
structure ChoiceSpec where
  wageParams : Option (List (Nat × ℚ))
  nonpecParams : Option (List (Nat × ℚ))

/-- The linear predictor `np.dot(states[columns], coefficients)` for one
state: covariates are a function from column index to value. -/
def linpred (cov : Nat → ℚ) (ps : List (Nat × ℚ)) : ℚ :=
  (ps.map (fun cb => cov cb.1 * cb.2)).sum

/-- The body of the `for i, choice in enumerate(choices)` loop of
`_create_choice_rewards` (solve.py lines 86-100): overwrite column `i` of
the wage matrix with `np.exp(log_wage)` when wage parameters exist, and
column `i` of the non-pecuniary matrix with the raw linear predictor when
non-pecuniary parameters exist.  Matrices are functions
(state row, choice column) → value. -/
def stepOne (expF : ℚ → ℚ) (cov : Nat → Nat → ℚ) (i : Nat) (ch : ChoiceSpec)
    (acc : (Nat → Nat → ℚ) × (Nat → Nat → ℚ)) :
    (Nat → Nat → ℚ) × (Nat → Nat → ℚ) :=
  (match ch.wageParams with
    | some ps => fun r j => if j = i then expF (linpred (cov r) ps) else acc.1 r j
    | none => acc.1,
   match ch.nonpecParams with
    | some ps => fun r j => if j = i then linpred (cov r) ps else acc.2 r j
    | none => acc.2)

/-- The enumerated loop over the (choice-set filtered) choices. -/
def applyRewardCols (expF : ℚ → ℚ) (cov : Nat → Nat → ℚ) :
    Nat → List ChoiceSpec → (Nat → Nat → ℚ) × (Nat → Nat → ℚ) →
      (Nat → Nat → ℚ) × (Nat → Nat → ℚ)
  | _, [], acc => acc
  | i, ch :: rest, acc =>
      applyRewardCols expF cov (i + 1) rest (stepOne expF cov i ch acc)

/-- `_create_choice_rewards` (solve.py lines 75-102): wages initialized to
`np.ones`, non-pecuniary rewards to `np.zeros`, then the per-choice column
updates.  `expF` stands for `np.exp`. -/
def createChoiceRewards (expF : ℚ → ℚ) (cov : Nat → Nat → ℚ)
    (choices : List ChoiceSpec) :
    (Nat → Nat → ℚ) × (Nat → Nat → ℚ) :=
  applyRewardCols expF cov 0 choices (fun _ _ => 1, fun _ _ => 0)

lemma stepOne_other (expF : ℚ → ℚ) (cov : Nat → Nat → ℚ) (i : Nat)
    (ch : ChoiceSpec) (acc : (Nat → Nat → ℚ) × (Nat → Nat → ℚ))
    (r j : Nat) (h : j ≠ i) :
    (stepOne expF cov i ch acc).1 r j = acc.1 r j
      ∧ (stepOne expF cov i ch acc).2 r j = acc.2 r j := by
  unfold stepOne
  constructor
  · cases ch.wageParams <;> simp [h]
  · cases ch.nonpecParams <;> simp [h]

lemma applyRewardCols_below (expF : ℚ → ℚ) (cov : Nat → Nat → ℚ) :
    ∀ (cs : List ChoiceSpec) (i : Nat) acc (r j : Nat), j < i →
      (applyRewardCols expF cov i cs acc).1 r j = acc.1 r j
        ∧ (applyRewardCols expF cov i cs acc).2 r j = acc.2 r j := by
  intro cs
  induction cs with
  | nil => intro i acc r j _; exact ⟨rfl, rfl⟩
  | cons ch rest ih =>
    intro i acc r j hj
    have h1 := ih (i + 1) (stepOne expF cov i ch acc) r j (by omega)
    have h2 := stepOne_other expF cov i ch acc r j (by omega)
    exact ⟨h1.1.trans h2.1, h1.2.trans h2.2⟩

lemma applyRewardCols_get (expF : ℚ → ℚ) (cov : Nat → Nat → ℚ) :
    ∀ (cs : List ChoiceSpec) (i : Nat) acc (j r : Nat) (hj : j < cs.length),
      ((applyRewardCols expF cov i cs acc).1 r (i + j)
         = match (cs.get ⟨j, hj⟩).wageParams with
           | some ps => expF (linpred (cov r) ps)
           | none => acc.1 r (i + j))
      ∧ ((applyRewardCols expF cov i cs acc).2 r (i + j)
         = match (cs.get ⟨j, hj⟩).nonpecParams with
           | some ps => linpred (cov r) ps
           | none => acc.2 r (i + j)) := by
  intro cs
  induction cs with
  | nil => intro i acc j r hj; exact absurd hj (by simp)
  | cons ch rest ih =>
    intro i acc j r hj
    cases j with
    | zero =>
      have hbelow := applyRewardCols_below expF cov rest (i + 1)
        (stepOne expF cov i ch acc) r i (by omega)
      simp only [applyRewardCols, Nat.add_zero, List.get]
      rw [hbelow.1, hbelow.2]
      unfold stepOne
      constructor
      · cases ch.wageParams <;> simp
      · cases ch.nonpecParams <;> simp
    | succ j =>
      have hj2 : j < rest.length := by simpa using hj
      have hih := ih (i + 1) (stepOne expF cov i ch acc) j r hj2
      have hoth := stepOne_other expF cov i ch acc r (i + 1 + j) (by omega)
      simp only [applyRewardCols, List.get]
      rw [show i + (j + 1) = i + 1 + j by omega]
      rw [hih.1, hih.2]
      constructor
      · cases (rest.get ⟨j, hj2⟩).wageParams <;> simp [hoth.1]
      · cases (rest.get ⟨j, hj2⟩).nonpecParams <;> simp [hoth.2]

/-- C4: for every state row `r` and every admissible choice column `j`,
`_create_choice_rewards` returns, as systematic wage, the exponential of
the linear predictor of the choice's wage coefficients when the choice has
wage parameters (and exactly 1 otherwise), and, as systematic non-pecuniary
reward, the raw linear predictor of the choice's non-pecuniary coefficients
(0 when absent, matching the `np.zeros` initialization). -/
theorem create_choice_rewards_spec (expF : ℚ → ℚ) (cov : Nat → Nat → ℚ)
    (choices : List ChoiceSpec) (r j : Nat) (hj : j < choices.length) :
    ((createChoiceRewards expF cov choices).1 r j
       = match (choices.get ⟨j, hj⟩).wageParams with
         | some ps => expF (linpred (cov r) ps)
         | none => 1)
    ∧ ((createChoiceRewards expF cov choices).2 r j
       = match (choices.get ⟨j, hj⟩).nonpecParams with
         | some ps => linpred (cov r) ps
         | none => 0) := by
  have h := applyRewardCols_get expF cov choices 0
    (fun _ _ => (1 : ℚ), fun _ _ => (0 : ℚ)) j r hj
  simpa using h

/-- Witness for C4: a wage choice and a non-pecuniary-only choice, at a
concrete covariate row. -/
theorem create_choice_rewards_spec_witness :
    0 < ([⟨some [(0, 2)], none⟩, ⟨none, some [(1, 3)]⟩] :
          List ChoiceSpec).length
      ∧ (((createChoiceRewards id (fun (r c : Nat) => (r : ℚ) + (c : ℚ))
            [⟨some [(0, 2)], none⟩, ⟨none, some [(1, 3)]⟩]).1 1 0
          = match (([⟨some [(0, 2)], none⟩, ⟨none, some [(1, 3)]⟩] :
              List ChoiceSpec).get ⟨0, by decide⟩).wageParams with
            | some ps => id (linpred ((fun (r c : Nat) => (r : ℚ) + (c : ℚ)) 1) ps)
            | none => 1)
        ∧ ((createChoiceRewards id (fun (r c : Nat) => (r : ℚ) + (c : ℚ))
            [⟨some [(0, 2)], none⟩, ⟨none, some [(1, 3)]⟩]).2 1 0
          = match (([⟨some [(0, 2)], none⟩, ⟨none, some [(1, 3)]⟩] :
              List ChoiceSpec).get ⟨0, by decide⟩).nonpecParams with
            | some ps => linpred ((fun (r c : Nat) => (r : ℚ) + (c : ℚ)) 1) ps
            | none => 0)) :=
  ⟨by decide,
    create_choice_rewards_spec id (fun (r c : Nat) => (r : ℚ) + (c : ℚ))
      [⟨some [(0, 2)], none⟩, ⟨none, some [(1, 3)]⟩] 1 0 (by decide)⟩

/-- `MISSING_FLOAT` — modelled from the spec: the sentinel missing-value
marker of the simulated panel (`robupy.shared.constants` is not under
`src/`; only the sentinel's role matters for the claims, not its value). -/
def MISSING_FLOAT : ℚ := -99

/-- The state vector `current_state = (exp_a, exp_b, edu, edu_lagged)`
threaded through `pyth_simulate`. -/
structure SimState where
  expA : Nat
  expB : Nat
  edu : Nat
  eduLagged : Nat
deriving DecidableEq, Repr

/-- The inputs of `pyth_simulate`
(`src/robupy/simulate/simulate_python.py`): systematic payoffs indexed by
(period, state index `k`, choice), the state-index mapping, the solved
expected value functions `periods_emax`, the enumerated states
`states_all`, the simulation draw battery indexed by (period, agent,
choice), the schooling bounds and the discount factor.  `penalty` is the
large negative constant attached to an inadmissible schooling choice
(§3 of the spec). -/
structure SimInputs where
  numPeriods : Nat
  numAgents : Nat
  eduStart : Nat
  eduMax : Nat
  delta : ℚ
  penalty : ℚ
  payoffs : Nat → Nat → Nat → ℚ
  mapping : Nat → SimState → Nat
  emax : Nat → Nat → ℚ
  statesAll : Nat → Nat → SimState
  draws : Nat → Nat → Nat → ℚ

/-- The deterministic state update of `pyth_simulate` (lines 73-85): the
chosen index 0, 1 or 2 increments the corresponding experience/education
counter; then `edu_lagged` is reset to 0 and set to 1 exactly when the
chosen index is 2. -/
def updateState (st : SimState) (j : Nat) : SimState :=
  let st1 :=
    if j = 0 then { st with expA := st.expA + 1 }
    else if j = 1 then { st with expB := st.expB + 1 }
    else if j = 2 then { st with edu := st.edu + 1 }
    else st
  let st2 := { st1 with eduLagged := 0 }
  if j = 2 then { st2 with eduLagged := 1 } else st2

/-- Modelled from the spec: `get_total_value`
(`robupy.shared.auxiliary`, not under `src/`).  Per §4.2 wage shocks
(choices 0 and 1) enter multiplicatively and non-pecuniary shocks
additively; per §4.3(c)/§3 the continuation value is the next period's
expected value function at the reached state (zero in the final period),
and an inadmissible schooling choice (education at the ceiling) receives
the fixed penalty. -/
def totalValue (inp : SimInputs) (p : Nat) (st : SimState)
    (drw : Nat → ℚ) (j : Nat) : ℚ :=
  let k := inp.mapping p st
  let exPost :=
    if j < 2 then inp.payoffs p k j * drw j else inp.payoffs p k j + drw j
  let pen :=
    if j = 2 ∧ inp.eduMax ≤ inp.eduStart + st.edu then inp.penalty else 0
  let cont :=
    if p + 1 < inp.numPeriods then
      inp.emax (p + 1) (inp.mapping (p + 1) (updateState st j))
    else 0
  exPost + pen + inp.delta * cont

/-- The 4-vector `total_payoffs` handed to `np.argmax`. -/
def totalValues (inp : SimInputs) (p : Nat) (st : SimState)
    (drw : Nat → ℚ) : List ℚ :=
  (List.range 4).map (totalValue inp p st drw)

/-- The scan underlying `np.argmax`: position `i` is the index of the next
list element, `bi`/`bv` the index and value of the best element so far;
only a strictly larger value replaces the incumbent, so ties keep the
earlier index. -/
def argmaxGo : List ℚ → Nat → Nat → ℚ → Nat
  | [], _, bi, _ => bi
  | v :: r, i, bi, bv =>
      if bv < v then argmaxGo r (i + 1) i v else argmaxGo r (i + 1) bi bv

/-- `np.argmax` on a list (0 on the empty list, which `pyth_simulate`
never produces). -/
def argmaxFirst : List ℚ → Nat
  | [] => 0
  | v :: r => argmaxGo r 1 0 v

/-- The agent's `current_state` at the beginning of period `p`:
initialized from `states_all[0, 0]` (line 28) and advanced by the
deterministic update with the choice of the previous period. -/
def agentState (inp : SimInputs) (i : Nat) : Nat → SimState
  | 0 => inp.statesAll 0 0
  | p + 1 =>
      updateState (agentState inp i p)
        (argmaxFirst
          (totalValues inp p (agentState inp i p) (inp.draws p i)))

/-- `max_idx` of agent `i` in period `p` (line 57). -/
def chosenAt (inp : SimInputs) (i p : Nat) : Nat :=
  argmaxFirst (totalValues inp p (agentState inp i p) (inp.draws p i))

/-- One row of the simulated panel (lines 44-71): agent id, period,
`max_idx + 1`, the realized wage (systematic payoff × draw for a wage
choice, the sentinel otherwise), and the pre-choice state with the
education column shifted by `edu_start`. -/
def simRow (inp : SimInputs) (i p : Nat) : List ℚ :=
  let st := agentState inp i p
  let k := inp.mapping p st
  let c := chosenAt inp i p
  let wage :=
    if c = 0 ∨ c = 1 then inp.payoffs p k c * inp.draws p i c
    else MISSING_FLOAT
  [(i : ℚ), (p : ℚ), (c : ℚ) + 1, wage,
   (st.expA : ℚ), (st.expB : ℚ), (st.edu : ℚ) + (inp.eduStart : ℚ),
   (st.eduLagged : ℚ)]

/-- The full simulated panel: agents in the outer loop, periods in the
inner loop, in the row order of the `count` index. -/
def pythSimulate (inp : SimInputs) : List (List ℚ) :=
  (List.range inp.numAgents).flatMap
    (fun i => (List.range inp.numPeriods).map (simRow inp i))

lemma argmaxGo_cases (r : List ℚ) : ∀ (i bi : Nat) (bv : ℚ),
    (argmaxGo r i bi bv = bi ∧ ∀ j, j < r.length → r.getD j 0 ≤ bv)
    ∨ (∃ j, j < r.length ∧ argmaxGo r i bi bv = i + j
        ∧ bv < r.getD j 0
        ∧ (∀ j2, j2 < r.length → r.getD j2 0 ≤ r.getD j 0)
        ∧ (∀ j2, j2 < j → r.getD j2 0 < r.getD j 0)) := by
  induction r with
  | nil =>
    intro i bi bv
    exact Or.inl ⟨rfl, fun j hj => absurd hj (by simp)⟩
  | cons v rest ih =>
    intro i bi bv
    by_cases hv : bv < v
    · rw [argmaxGo, if_pos hv]
      rcases ih (i + 1) i v with ⟨heq, hle⟩ | ⟨j, hj, heq, hgt, hmax, hfirst⟩
      · refine Or.inr ⟨0, by simp, by simpa using heq, by simpa using hv, ?_,
          fun j2 hj2 => absurd hj2 (by omega)⟩
        intro j2 hj2
        cases j2 with
        | zero => simp
        | succ j2 =>
          simp only [List.getD_cons_succ, List.getD_cons_zero]
          exact hle j2 (by simpa using hj2)
      · refine Or.inr ⟨j + 1, by simpa using hj, heq.trans (by omega),
          ?_, ?_, ?_⟩
        · simpa using lt_trans hv hgt
        · intro j2 hj2
          cases j2 with
          | zero => simpa using le_of_lt hgt
          | succ j2 =>
            simp only [List.getD_cons_succ]
            exact hmax j2 (by simpa using hj2)
        · intro j2 hj2
          cases j2 with
          | zero => simpa using hgt
          | succ j2 =>
            simp only [List.getD_cons_succ]
            exact hfirst j2 (by omega)
    · rw [argmaxGo, if_neg hv]
      have hvle : v ≤ bv := not_lt.mp hv
      rcases ih (i + 1) bi bv with ⟨heq, hle⟩ | ⟨j, hj, heq, hgt, hmax, hfirst⟩
      · refine Or.inl ⟨heq, ?_⟩
        intro j2 hj2
        cases j2 with
        | zero => simpa using hvle
        | succ j2 =>
          simp only [List.getD_cons_succ]
          exact hle j2 (by simpa using hj2)
      · refine Or.inr ⟨j + 1, by simpa using hj, heq.trans (by omega),
          ?_, ?_, ?_⟩
        · simpa using hgt
        · intro j2 hj2
          cases j2 with
          | zero => simpa using le_of_lt (lt_of_le_of_lt hvle hgt)
          | succ j2 =>
            simp only [List.getD_cons_succ]
            exact hmax j2 (by simpa using hj2)
        · intro j2 hj2
          cases j2 with
          | zero => simpa using lt_of_le_of_lt hvle hgt
          | succ j2 =>
            simp only [List.getD_cons_succ]
            exact hfirst j2 (by omega)

lemma argmaxFirst_is_first_max (v : ℚ) (r : List ℚ) :
    argmaxFirst (v :: r) < (v :: r).length
    ∧ (∀ j, j < (v :: r).length →
        (v :: r).getD j 0 ≤ (v :: r).getD (argmaxFirst (v :: r)) 0)
    ∧ (∀ j, j < argmaxFirst (v :: r) →
        (v :: r).getD j 0 < (v :: r).getD (argmaxFirst (v :: r)) 0) := by
  have hA : argmaxFirst (v :: r) = argmaxGo r 1 0 v := rfl
  rcases argmaxGo_cases r 1 0 v with ⟨heq, hle⟩ | ⟨j, hj, heq, hgt, hmax, hfirst⟩
  · rw [hA, heq]
    refine ⟨by simp, ?_, fun j2 hj2 => absurd hj2 (by omega)⟩
    intro j2 hj2
    cases j2 with
    | zero => simp
    | succ j2 =>
      simp only [List.getD_cons_succ, List.getD_cons_zero]
      exact hle j2 (by simpa using hj2)
  · have h1j : 1 + j = j + 1 := by omega
    rw [hA, heq, h1j]
    refine ⟨by simpa using hj, ?_, ?_⟩
    · intro j2 hj2
      cases j2 with
      | zero => simpa using le_of_lt hgt
      | succ j2 =>
        simp only [List.getD_cons_succ]
        exact hmax j2 (by simpa using hj2)
    · intro j2 hj2
      cases j2 with
      | zero => simpa using hgt
      | succ j2 =>
        simp only [List.getD_cons_succ]
        exact hfirst j2 (by omega)

lemma updateState_eduLagged (st : SimState) (j : Nat) :
    (updateState st j).eduLagged = if j = 2 then 1 else 0 := by
  unfold updateState
  by_cases hj : j = 2 <;> simp [hj]

/-- A concrete simulation input used to instantiate the simulator
theorems. -/
def exSim : SimInputs where
  numPeriods := 2
  numAgents := 1
  eduStart := 10
  eduMax := 20
  delta := 95 / 100
  penalty := -40000
  payoffs := fun _ _ c => (c : ℚ) + 1
  mapping := fun _ st => st.expA + st.expB + st.edu
  emax := fun _ _ => 0
  statesAll := fun _ _ => ⟨0, 0, 0, 1⟩
  draws := fun _ _ _ => 1

/-- C6: in every simulated agent-period the chosen index is in range, its
total value is maximal among the four total choice values, and every index
before it has a strictly smaller value — i.e. `np.argmax` picks the first
index attaining the maximum. -/
theorem simulate_chosen_is_first_argmax (inp : SimInputs) (i p : Nat) :
    chosenAt inp i p
        < (totalValues inp p (agentState inp i p) (inp.draws p i)).length
    ∧ (∀ j, j < (totalValues inp p (agentState inp i p) (inp.draws p i)).length →
        (totalValues inp p (agentState inp i p) (inp.draws p i)).getD j 0
          ≤ (totalValues inp p (agentState inp i p) (inp.draws p i)).getD
              (chosenAt inp i p) 0)
    ∧ (∀ j, j < chosenAt inp i p →
        (totalValues inp p (agentState inp i p) (inp.draws p i)).getD j 0
          < (totalValues inp p (agentState inp i p) (inp.draws p i)).getD
              (chosenAt inp i p) 0) := by
  have hvals : totalValues inp p (agentState inp i p) (inp.draws p i)
      = totalValue inp p (agentState inp i p) (inp.draws p i) 0
        :: [totalValue inp p (agentState inp i p) (inp.draws p i) 1,
            totalValue inp p (agentState inp i p) (inp.draws p i) 2,
            totalValue inp p (agentState inp i p) (inp.draws p i) 3] := rfl
  have hchosen : chosenAt inp i p
      = argmaxFirst (totalValues inp p (agentState inp i p) (inp.draws p i)) :=
    rfl
  rw [hchosen, hvals]
  exact argmaxFirst_is_first_max _ _

/-- Witness for C6 at the concrete simulation input. -/
theorem simulate_chosen_is_first_argmax_witness :
    chosenAt exSim 0 0
        < (totalValues exSim 0 (agentState exSim 0 0) (exSim.draws 0 0)).length
    ∧ (∀ j, j < (totalValues exSim 0 (agentState exSim 0 0)
            (exSim.draws 0 0)).length →
        (totalValues exSim 0 (agentState exSim 0 0) (exSim.draws 0 0)).getD j 0
          ≤ (totalValues exSim 0 (agentState exSim 0 0)
              (exSim.draws 0 0)).getD (chosenAt exSim 0 0) 0)
    ∧ (∀ j, j < chosenAt exSim 0 0 →
        (totalValues exSim 0 (agentState exSim 0 0) (exSim.draws 0 0)).getD j 0
          < (totalValues exSim 0 (agentState exSim 0 0)
              (exSim.draws 0 0)).getD (chosenAt exSim 0 0) 0) :=
  simulate_chosen_is_first_argmax exSim 0 0

/-- C5: the realized wage written to column 3 of an agent-period row is the
systematic payoff of the chosen choice multiplied by the agent-period draw
when the chosen index is a wage choice (0 or 1), and the sentinel
`MISSING_FLOAT` for any other chosen index. -/
theorem simulate_recorded_wage (inp : SimInputs) (i p : Nat) :
    ((chosenAt inp i p = 0 ∨ chosenAt inp i p = 1) →
      (simRow inp i p).getD 3 0
        = inp.payoffs p (inp.mapping p (agentState inp i p)) (chosenAt inp i p)
            * inp.draws p i (chosenAt inp i p))
    ∧ (¬ (chosenAt inp i p = 0 ∨ chosenAt inp i p = 1) →
      (simRow inp i p).getD 3 0 = MISSING_FLOAT) := by
  constructor
  · intro hc
    simp [simRow, hc]
  · intro hc
    simp only [simRow]
    rw [if_neg hc]
    rfl

/-- Witness for C5 at the concrete simulation input. -/
theorem simulate_recorded_wage_witness :
    ((chosenAt exSim 0 0 = 0 ∨ chosenAt exSim 0 0 = 1) →
      (simRow exSim 0 0).getD 3 0
        = exSim.payoffs 0 (exSim.mapping 0 (agentState exSim 0 0))
            (chosenAt exSim 0 0) * exSim.draws 0 0 (chosenAt exSim 0 0))
    ∧ (¬ (chosenAt exSim 0 0 = 0 ∨ chosenAt exSim 0 0 = 1) →
      (simRow exSim 0 0).getD 3 0 = MISSING_FLOAT) :=
  simulate_recorded_wage exSim 0 0

/-- C7: the post-choice state is a deterministic function of the chosen
index: indices 0, 1, 2 increment exactly the corresponding counter, index 3
leaves all counters unchanged, and the updated lagged-schooling indicator
is 1 exactly when the chosen index is 2. -/
theorem simulate_state_update (inp : SimInputs) (i p : Nat) :
    (chosenAt inp i p = 0 →
      agentState inp i (p + 1)
        = ⟨(agentState inp i p).expA + 1, (agentState inp i p).expB,
           (agentState inp i p).edu, 0⟩)
    ∧ (chosenAt inp i p = 1 →
      agentState inp i (p + 1)
        = ⟨(agentState inp i p).expA, (agentState inp i p).expB + 1,
           (agentState inp i p).edu, 0⟩)
    ∧ (chosenAt inp i p = 2 →
      agentState inp i (p + 1)
        = ⟨(agentState inp i p).expA, (agentState inp i p).expB,
           (agentState inp i p).edu + 1, 1⟩)
    ∧ (chosenAt inp i p = 3 →
      agentState inp i (p + 1)
        = ⟨(agentState inp i p).expA, (agentState inp i p).expB,
           (agentState inp i p).edu, 0⟩)
    ∧ ((agentState inp i (p + 1)).eduLagged = 1 ↔ chosenAt inp i p = 2) := by
  have hstep : agentState inp i (p + 1)
      = updateState (agentState inp i p) (chosenAt inp i p) := rfl
  refine ⟨?_, ?_, ?_, ?_, ?_⟩
  · intro hc; rw [hstep, hc]; simp [updateState]
  · intro hc; rw [hstep, hc]; simp [updateState]
  · intro hc; rw [hstep, hc]; simp [updateState]
  · intro hc; rw [hstep, hc]; simp [updateState]
  · rw [hstep, updateState_eduLagged]
    by_cases hc : chosenAt inp i p = 2 <;> simp [hc]

/-- Witness for C7 at the concrete simulation input. -/
theorem simulate_state_update_witness :
    (chosenAt exSim 0 0 = 0 →
      agentState exSim 0 1
        = ⟨(agentState exSim 0 0).expA + 1, (agentState exSim 0 0).expB,
           (agentState exSim 0 0).edu, 0⟩)
    ∧ (chosenAt exSim 0 0 = 1 →
      agentState exSim 0 1
        = ⟨(agentState exSim 0 0).expA, (agentState exSim 0 0).expB + 1,
           (agentState exSim 0 0).edu, 0⟩)
    ∧ (chosenAt exSim 0 0 = 2 →
      agentState exSim 0 1
        = ⟨(agentState exSim 0 0).expA, (agentState exSim 0 0).expB,
           (agentState exSim 0 0).edu + 1, 1⟩)
    ∧ (chosenAt exSim 0 0 = 3 →
      agentState exSim 0 1
        = ⟨(agentState exSim 0 0).expA, (agentState exSim 0 0).expB,
           (agentState exSim 0 0).edu, 0⟩)
    ∧ ((agentState exSim 0 1).eduLagged = 1 ↔ chosenAt exSim 0 0 = 2) :=
  simulate_state_update exSim 0 0

/-- C10: every agent's period-0 state is `states_all[0, 0]`, and the
pre-choice state recorded in the period-0 row (columns 4-7) is exactly that
state, with the education column shifted by `edu_start` — independent of
the agent index, since the right-hand sides do not mention the agent. -/
theorem simulate_identical_initial_states (inp : SimInputs) (i : Nat) :
    agentState inp i 0 = inp.statesAll 0 0
    ∧ (simRow inp i 0).getD 4 0 = ((inp.statesAll 0 0).expA : ℚ)
    ∧ (simRow inp i 0).getD 5 0 = ((inp.statesAll 0 0).expB : ℚ)
    ∧ (simRow inp i 0).getD 6 0
        = ((inp.statesAll 0 0).edu : ℚ) + (inp.eduStart : ℚ)
    ∧ (simRow inp i 0).getD 7 0 = ((inp.statesAll 0 0).eduLagged : ℚ) := by
  refine ⟨rfl, ?_, ?_, ?_, ?_⟩ <;> simp [simRow, agentState]

/-- The in-place squaring of the diagonal entries of the SHOCKS
coefficients (`for i in [0, 4, 7, 9]: shocks_coeffs[i] **= 2`,
process_model.py lines 255-256). -/
def squaredCoeffs (c : Nat → ℚ) : Nat → ℚ :=
  fun i => if i = 0 ∨ i = 4 ∨ i = 7 ∨ i = 9 then c i ^ 2 else c i

/-- The upper-triangular matrix `shocks` filled row by row from the ten
coefficients (process_model.py lines 258-262); entries outside the 4x4
block are 0. -/
def shocksUpper (c : Nat → ℚ) : Nat → Nat → ℚ :=
  fun i j =>
    if i = 0 then
      if j = 0 then c 0 else if j = 1 then c 1
      else if j = 2 then c 2 else if j = 3 then c 3 else 0
    else if i = 1 then
      if j = 1 then c 4 else if j = 2 then c 5 else if j = 3 then c 6 else 0
    else if i = 2 then
      if j = 2 then c 7 else if j = 3 then c 8 else 0
    else if i = 3 then
      if j = 3 then c 9 else 0
    else 0

/-- `shocks_cov = shocks + shocks.T - np.diag(shocks.diagonal())`
(process_model.py line 264), assembled from the squared coefficients. -/
def shocksCov (c : Nat → ℚ) : Nat → Nat → ℚ :=
  fun i j =>
    shocksUpper (squaredCoeffs c) i j + shocksUpper (squaredCoeffs c) j i
      - (if i = j then shocksUpper (squaredCoeffs c) i i else 0)

/-- `np.count_nonzero(shocks_cov) == 0`: every entry of the assembled 4x4
covariance is zero. -/
def covAllZero (c : Nat → ℚ) : Prop :=
  ∀ i, i < 4 → ∀ j, j < 4 → shocksCov c i j = 0

instance (c : Nat → ℚ) : Decidable (covAllZero c) := by
  unfold covAllZero; infer_instance

/-- Executable stand-in for `np.linalg.cholesky` on a 4x4 matrix: the
Cholesky–Banachiewicz recurrences with square roots supplied by the oracle
`sq`, failing — as numpy raises `LinAlgError` — when a pivot is not
positive. -/
def chol4 (sq : ℚ → ℚ) (a : Nat → Nat → ℚ) :
    Option (Nat → Nat → ℚ) :=
  let d0 := a 0 0
  if d0 ≤ 0 then none else
  let l00 := sq d0
  let l10 := a 1 0 / l00
  let l20 := a 2 0 / l00
  let l30 := a 3 0 / l00
  let d1 := a 1 1 - l10 ^ 2
  if d1 ≤ 0 then none else
  let l11 := sq d1
  let l21 := (a 2 1 - l20 * l10) / l11
  let l31 := (a 3 1 - l30 * l10) / l11
  let d2 := a 2 2 - l20 ^ 2 - l21 ^ 2
  if d2 ≤ 0 then none else
  let l22 := sq d2
  let l32 := (a 3 2 - l30 * l20 - l31 * l21) / l22
  let d3 := a 3 3 - l30 ^ 2 - l31 ^ 2 - l32 ^ 2
  if d3 ≤ 0 then none else
  let l33 := sq d3
  some (fun i j =>
    if i = 0 then (if j = 0 then l00 else 0)
    else if i = 1 then (if j = 0 then l10 else if j = 1 then l11 else 0)
    else if i = 2 then
      (if j = 0 then l20 else if j = 1 then l21 else if j = 2 then l22
       else 0)
    else if i = 3 then
      (if j = 0 then l30 else if j = 1 then l31 else if j = 2 then l32
       else if j = 3 then l33 else 0)
    else 0)

/-- The shock-processing step of `convert_init_dict_to_attr_dict`
(process_model.py lines 266-272): if `np.count_nonzero(shocks_cov) == 0`
the stored Cholesky factor is the 4x4 zero matrix and no decomposition is
attempted; otherwise it is the Cholesky decomposition of the covariance
(`none` = the decomposition raised). -/
def processShocksCholesky (sq : ℚ → ℚ) (c : Nat → ℚ) :
    Option (Nat → Nat → ℚ) :=
  if covAllZero c then some (fun _ _ => 0)
  else chol4 sq (shocksCov c)

/-- C8: a parametrization whose assembled 4x4 shock covariance is
identically zero is processed without error — the stored factor is the zero
matrix and the Cholesky decomposition is never attempted — while any
covariance with a non-zero entry is sent to the Cholesky decomposition. -/
theorem zero_covariance_skips_cholesky (sq : ℚ → ℚ) (c : Nat → ℚ) :
    (covAllZero c → processShocksCholesky sq c = some (fun _ _ => 0))
    ∧ (¬ covAllZero c →
      processShocksCholesky sq c = chol4 sq (shocksCov c)) := by
  constructor
  · intro h
    simp [processShocksCholesky, h]
  · intro h
    simp [processShocksCholesky, h]

/-- Witness for C8: the all-zero coefficient vector yields the all-zero
covariance, which is stored as the zero factor without decomposition. -/
theorem zero_covariance_skips_cholesky_witness :
    covAllZero (fun _ => 0)
      ∧ processShocksCholesky id (fun _ => 0) = some (fun _ _ => 0) := by
  have hz : covAllZero (fun _ => 0) := by
    intro i hi j hj
    interval_cases i <;> interval_cases j <;>
      norm_num [shocksCov, shocksUpper, squaredCoeffs]
  exact ⟨hz, (zero_covariance_skips_cholesky id (fun _ => 0)).1 hz⟩

/-- `_paras_mapping()` (process_model.py lines 599-611). -/
def parasMapping : List (Nat × Nat) :=
  [(43, 43), (44, 44), (45, 46), (46, 49), (47, 45), (48, 47),
   (49, 50), (50, 48), (51, 51), (52, 52)]

/-- The reordering of the fixed-parameter flags applied by
`convert_init_dict_to_attr_dict` (lines 328-335):
`paras_fixed_reordered[new] = paras_fixed[old]` for each mapping pair, with
reads from the original list. -/
def reorderFixedToAttr (xs : List Bool) : List Bool :=
  parasMapping.foldl (fun acc pr => acc.set pr.2 (xs.getD pr.1 false)) xs

/-- The reverse reordering applied by `convert_attr_dict_to_init_dict`
(lines 407-414): `paras_fixed[old] = paras_fixed_reordered[new]`, again
reading from the original list. -/
def reorderFixedToInit (ys : List Bool) : List Bool :=
  parasMapping.foldl (fun acc pr => acc.set pr.1 (ys.getD pr.2 false)) ys

lemma getD_set (l : List Bool) (i j : Nat) (a d : Bool) :
    (l.set i a).getD j d
      = if j = i ∧ i < l.length then a else l.getD j d := by
  by_cases hij : j = i
  · subst hij
    by_cases hlen : j < l.length
    · simp [List.getD, List.getElem?_set, hlen]
    · rw [List.set_eq_of_length_le (by omega)]
      simp [hlen]
  · simp [List.getD, List.getElem?_set, hij, Ne.symm hij]

/-- C9: converting the fixed flags from the init layout to the attribute
layout and back restores every SHOCKS position 43-52 (indeed the mapping
pairs form mutually inverse permutations of those positions). -/
theorem paras_mapping_roundtrip (xs : List Bool) (hlen : 53 ≤ xs.length) :
    ∀ i, 43 ≤ i → i ≤ 52 →
      (reorderFixedToInit (reorderFixedToAttr xs)).getD i false
        = xs.getD i false := by
  intro i h1 h2
  have h43 : 43 < xs.length := by omega
  have h44 : 44 < xs.length := by omega
  have h45 : 45 < xs.length := by omega
  have h46 : 46 < xs.length := by omega
  have h47 : 47 < xs.length := by omega
  have h48 : 48 < xs.length := by omega
  have h49 : 49 < xs.length := by omega
  have h50 : 50 < xs.length := by omega
  have h51 : 51 < xs.length := by omega
  have h52 : 52 < xs.length := by omega
  interval_cases i <;>
    simp [reorderFixedToInit, reorderFixedToAttr, parasMapping, getD_set,
      List.length_set, h43, h44, h45, h46, h47, h48, h49, h50, h51, h52]

/-- Witness for C9 on a concrete length-53 flag list with a distinctive
pattern on positions 43-52. -/
theorem paras_mapping_roundtrip_witness :
    53 ≤ (List.replicate 43 false ++
      [true, false, true, true, false, false, true, false, true, false]).length
      ∧ ∀ i, 43 ≤ i → i ≤ 52 →
        (reorderFixedToInit (reorderFixedToAttr
          (List.replicate 43 false ++
            [true, false, true, true, false, false, true, false, true,
             false]))).getD i false
          = (List.replicate 43 false ++
              [true, false, true, true, false, false, true, false, true,
               false]).getD i false :=
  ⟨by decide,
    paras_mapping_roundtrip _ (by decide)⟩

end RespyVerify
